import Mathlib

set_option autoImplicit false

/-!
# Verification of the zp recursive extraction core

Shallow embedding of the password retry engine (`src/core/extractor.js`),
the volume group resolver (`volumeHandler.js`), the nested extraction
orchestrator (`NestedArchiveProcessor`), batch extraction and output
directory selection, together with theorems settling the specification
claims about them.
-/

namespace ZP

/-- JavaScript `String.prototype.includes`: substring test. -/
def strIncludes (s pat : String) : Bool :=
  decide (List.IsInfix pat.toList s.toList)

/-- A `ZPError` as produced by `ErrorFactory` (`src/core/errors.js`):
the `message` field together with the optional `details.reason`. -/
structure ZPErr where
  message : String
  reason : Option String
deriving DecidableEq, Repr

/-- Outcome of one `sevenZip.extractArchive` invocation: either a resolved
extraction (list of extracted file paths) or a rejected `ZPError`. -/
inductive SZOutcome where
  | ok (extractedFiles : List String)
  | err (e : ZPErr)
deriving DecidableEq, Repr

/-- The wrong-password classification used by `_tryExtractWithPasswords`
(`extractor.js` lines 238-239 and 273-274):
`error.message.includes('Wrong password') ||
 (error.details && error.details.reason && error.details.reason.includes('Wrong password'))`. -/
def isPasswordError (e : ZPErr) : Bool :=
  strIncludes e.message "Wrong password" ||
    (match e.reason with
     | some r => strIncludes r "Wrong password"
     | none => false)

/-- The result fragment returned by `_tryExtractWithPasswords`. -/
structure TryOutcome where
  success : Bool
  extractedFiles : List String := []
  usedPassword : Option String := none
  error : Option String := none
deriving DecidableEq, Repr

/-- The `for` loop over candidate passwords in `_tryExtractWithPasswords`
(`extractor.js` lines 250-296), reached only after the no-password attempt
was classified as a wrong-password failure.  Besides the outcome we return
the trace of passwords handed to the decoder, so invocation counts can be
stated; the JS code performs exactly one `sevenZip.extractArchive` call per
trace entry. -/
def tryPasswordLoop (decoder : Option String → SZOutcome) :
    List String → TryOutcome × List (Option String)
  | [] => ({ success := false, error := some "No valid passwords found" }, [])
  | p :: rest =>
    match decoder (some p) with
    | .ok files =>
      ({ success := true, extractedFiles := files, usedPassword := some p }, [some p])
    | .err e =>
      if !(isPasswordError e) then
        ({ success := false, error := some e.message }, [some p])
      else if rest.isEmpty then
        ({ success := false, error := some "All passwords failed" }, [some p])
      else
        ((tryPasswordLoop decoder rest).1, some p :: (tryPasswordLoop decoder rest).2)

/-- `ArchiveExtractor._tryExtractWithPasswords` (`extractor.js` lines
212-297): first a decode attempt with no password; a failure that is not
classified as wrong-password is surfaced immediately; otherwise each
candidate is tried in order by `tryPasswordLoop`. -/
def tryExtractWithPasswords (decoder : Option String → SZOutcome)
    (passwords : List String) : TryOutcome × List (Option String) :=
  match decoder none with
  | .ok files =>
    ({ success := true, extractedFiles := files, usedPassword := none }, [none])
  | .err e =>
    if !(isPasswordError e) then
      ({ success := false, error := some e.message }, [none])
    else
      let r := tryPasswordLoop decoder passwords
      (r.1, none :: r.2)

/-- The decoder of the spec's `secret.zip` scenario: wrong-password for the
empty attempt, `wrong1` and `wrong2`, success for `test123`. -/
def secretZipDecoder : Option String → SZOutcome := fun p =>
  match p with
  | some "test123" => .ok ["secret.txt"]
  | _ => .err { message := "Failed to extract secret.zip", reason := some "Wrong password" }

/-! ### Lemmas about the password retry loop -/

/-- A nonempty candidate list always produces a nonempty attempt trace. -/
theorem tryPasswordLoop_trace_ne_nil (decoder : Option String → SZOutcome)
    (p : String) (rest : List String) :
    (tryPasswordLoop decoder (p :: rest)).2 ≠ [] := by
  unfold tryPasswordLoop
  cases h : decoder (some p) <;> simp
  split
  · simp
  · split <;> simp

/-- The loop attempts candidates in list order: its trace is a prefix of the
candidate list. -/
theorem tryPasswordLoop_trace_prefix (decoder : Option String → SZOutcome) :
    ∀ ps : List String, (tryPasswordLoop decoder ps).2 <+: ps.map some
  | [] => by simp [tryPasswordLoop]
  | p :: rest => by
    unfold tryPasswordLoop
    cases h : decoder (some p) with
    | ok files => simp
    | err e =>
      simp only
      split
      · simp
      · split
        · simp
        · rcases tryPasswordLoop_trace_prefix decoder rest with ⟨t, ht⟩
          exact ⟨t, by simp [ht]⟩

/-- Every attempt before the last one in the loop trace failed with a
wrong-password classification. -/
theorem tryPasswordLoop_dropLast_fail (decoder : Option String → SZOutcome) :
    ∀ (ps : List String) (a : Option String),
      a ∈ (tryPasswordLoop decoder ps).2.dropLast →
      ∃ e, decoder a = SZOutcome.err e ∧ isPasswordError e = true
  | [], a => by simp [tryPasswordLoop]
  | p :: rest, a => by
    unfold tryPasswordLoop
    cases h : decoder (some p) with
    | ok files => simp
    | err e =>
      simp only
      split
      · simp
      · split
        · simp
        · rename_i hpwd hrest
          have hne : (tryPasswordLoop decoder rest).2 ≠ [] := by
            cases rest with
            | nil => simp at hrest
            | cons q qs => exact tryPasswordLoop_trace_ne_nil decoder q qs
          intro hmem
          rw [List.dropLast_cons_of_ne_nil hne] at hmem
          rcases List.mem_cons.mp hmem with h1 | h2
          · subst h1
            exact ⟨e, h, by simpa using hpwd⟩
          · exact tryPasswordLoop_dropLast_fail decoder rest a h2

/-- If the loop succeeds, the final attempt in its trace is the one the
decoder accepted, and it becomes `usedPassword`. -/
theorem tryPasswordLoop_success_last (decoder : Option String → SZOutcome) :
    ∀ ps : List String, (tryPasswordLoop decoder ps).1.success = true →
      ∃ a files, (tryPasswordLoop decoder ps).2.getLast? = some a ∧
        decoder a = SZOutcome.ok files ∧
        (tryPasswordLoop decoder ps).1.usedPassword = a
  | [] => by simp [tryPasswordLoop]
  | p :: rest => by
    unfold tryPasswordLoop
    cases h : decoder (some p) with
    | ok files => exact fun _ => ⟨some p, files, by simp, h, by simp⟩
    | err e =>
      simp only
      split
      · simp
      · split
        · simp
        · rename_i hpwd hrest
          intro hs
          rcases tryPasswordLoop_success_last decoder rest hs with ⟨a, files, h1, h2, h3⟩
          refine ⟨a, files, ?_, h2, h3⟩
          have hne : (tryPasswordLoop decoder rest).2 ≠ [] := by
            cases rest with
            | nil => simp at hrest
            | cons q qs => exact tryPasswordLoop_trace_ne_nil decoder q qs
          rcases List.exists_cons_of_ne_nil hne with ⟨b, t, hbt⟩
          rw [hbt] at h1 ⊢
          rw [List.getLast?_cons_cons]
          exact h1

/-- If the loop hits a failure that is not classified as wrong-password at
position `i`, after wrong-password failures at all earlier positions, it
stops there: the error is surfaced as-is and exactly `i + 1` candidates were
handed to the decoder. -/
theorem tryPasswordLoop_stops_at_nonpassword (decoder : Option String → SZOutcome) :
    ∀ (ps : List String) (i : Nat) (hi : i < ps.length) (e : ZPErr),
      (∀ j (hj : j < i), ∃ ej,
        decoder (some (ps.get ⟨j, Nat.lt_trans hj hi⟩)) = SZOutcome.err ej ∧
        isPasswordError ej = true) →
      decoder (some (ps.get ⟨i, hi⟩)) = SZOutcome.err e →
      isPasswordError e = false →
      tryPasswordLoop decoder ps =
        ({ success := false, error := some e.message }, (ps.take (i+1)).map some)
  | [], i, hi => by simp at hi
  | p :: rest, 0, hi => by
    intro e _ he hpe
    simp only [List.get] at he
    unfold tryPasswordLoop
    rw [he]
    simp [hpe]
  | p :: rest, i + 1, hi => by
    intro e hprev he hpe
    rcases hprev 0 (Nat.succ_pos i) with ⟨e0, he0, hpe0⟩
    simp only [List.get] at he0
    have hrest : i < rest.length := by simpa using Nat.lt_of_succ_lt_succ hi
    have hrest_ne : rest ≠ [] := List.ne_nil_of_length_pos (Nat.lt_of_le_of_lt (Nat.zero_le i) hrest)
    unfold tryPasswordLoop
    rw [he0]
    simp only [hpe0, Bool.not_true, Bool.false_eq_true, if_false,
      List.isEmpty_eq_true, hrest_ne, if_false]
    rw [tryPasswordLoop_stops_at_nonpassword decoder rest i hrest e
      (fun j hj => by
        rcases hprev (j+1) (Nat.succ_lt_succ hj) with ⟨ej, hej, hpej⟩
        exact ⟨ej, by simpa using hej, hpej⟩)
      (by simpa using he) hpe]
    simp

/-! ### Claim theorems: the password retry engine -/

/-- C1: `_tryExtractWithPasswords` first attempts decode with no password
and then attempts each candidate in list order, stopping at the first
success.  Conjuncts: (1) a successful no-password attempt means exactly one
decoder invocation with `usedPassword = null`; (2) the attempt trace is a
prefix of "no password, then candidates in order"; (3) every attempt before
the last failed as wrong-password; (4) on success the last attempt is the
accepted one and becomes `usedPassword`; (5) the `secret.zip` scenario:
wrong-password for "", "wrong1", "wrong2" and success for "test123" yields
success with `usedPassword = "test123"` in exactly 4 decoder invocations. -/
theorem passwordRetry_attempt_order :
    (∀ (decoder : Option String → SZOutcome) (ps files : List String),
        decoder none = SZOutcome.ok files →
        tryExtractWithPasswords decoder ps =
          ({ success := true, extractedFiles := files, usedPassword := none }, [none]))
    ∧ (∀ (decoder : Option String → SZOutcome) (ps : List String),
        (tryExtractWithPasswords decoder ps).2 <+: none :: ps.map some)
    ∧ (∀ (decoder : Option String → SZOutcome) (ps : List String) (a : Option String),
        a ∈ (tryExtractWithPasswords decoder ps).2.dropLast →
        ∃ e, decoder a = SZOutcome.err e ∧ isPasswordError e = true)
    ∧ (∀ (decoder : Option String → SZOutcome) (ps : List String),
        (tryExtractWithPasswords decoder ps).1.success = true →
        ∃ a files, (tryExtractWithPasswords decoder ps).2.getLast? = some a ∧
          decoder a = SZOutcome.ok files ∧
          (tryExtractWithPasswords decoder ps).1.usedPassword = a)
    ∧ ((tryExtractWithPasswords secretZipDecoder ["wrong1", "wrong2", "test123"]).1.success = true
        ∧ (tryExtractWithPasswords secretZipDecoder
            ["wrong1", "wrong2", "test123"]).1.usedPassword = some "test123"
        ∧ (tryExtractWithPasswords secretZipDecoder ["wrong1", "wrong2", "test123"]).2.length = 4) := by
  refine ⟨?_, ?_, ?_, ?_, by decide⟩
  · intro decoder ps files h
    unfold tryExtractWithPasswords
    rw [h]
  · intro decoder ps
    unfold tryExtractWithPasswords
    cases h : decoder none with
    | ok files => exact ⟨ps.map some, rfl⟩
    | err e =>
      simp only
      split
      · exact ⟨ps.map some, rfl⟩
      · rcases tryPasswordLoop_trace_prefix decoder ps with ⟨t, ht⟩
        exact ⟨t, by simp [ht]⟩
  · intro decoder ps a
    unfold tryExtractWithPasswords
    cases h : decoder none with
    | ok files => simp
    | err e =>
      simp only
      split
      · simp
      · rename_i hpwd
        cases ps with
        | nil => simp [tryPasswordLoop]
        | cons q qs =>
          have hne : (tryPasswordLoop decoder (q :: qs)).2 ≠ [] :=
            tryPasswordLoop_trace_ne_nil decoder q qs
          intro hmem
          rw [List.dropLast_cons_of_ne_nil hne] at hmem
          rcases List.mem_cons.mp hmem with h1 | h2
          · subst h1
            exact ⟨e, h, by simpa using hpwd⟩
          · exact tryPasswordLoop_dropLast_fail decoder (q :: qs) a h2
  · intro decoder ps
    unfold tryExtractWithPasswords
    cases h : decoder none with
    | ok files => exact fun _ => ⟨none, files, by simp, h, by simp⟩
    | err e =>
      simp only
      split
      · simp
      · intro hs
        rcases tryPasswordLoop_success_last decoder ps hs with ⟨a, files, h1, h2, h3⟩
        refine ⟨a, files, ?_, h2, h3⟩
        cases ps with
        | nil => simp [tryPasswordLoop] at hs
        | cons q qs =>
          rcases List.exists_cons_of_ne_nil (tryPasswordLoop_trace_ne_nil decoder q qs)
            with ⟨b, t, hbt⟩
          rw [hbt] at h1 ⊢
          rw [List.getLast?_cons_cons]
          exact h1

/-- Witness for C1: a decoder that succeeds without a password is invoked
exactly once and `usedPassword` is `none`. -/
theorem passwordRetry_attempt_order_witness :
    tryExtractWithPasswords (fun _ => SZOutcome.ok ["a.txt"]) ["x", "y"] =
      ({ success := true, extractedFiles := ["a.txt"], usedPassword := none }, [none]) :=
  passwordRetry_attempt_order.1 (fun _ => SZOutcome.ok ["a.txt"]) ["x", "y"] ["a.txt"] rfl

/-- C2: a failure of the no-password attempt that is not classified as
wrong-password terminates the sequence immediately — the error is surfaced
as-is, the decoder is invoked exactly once and no candidate is tried; the
same immediate stop applies to a non-password-class error at any position
while iterating candidates (exactly `i + 2` invocations if candidate `i`
raises it). -/
theorem passwordRetry_nonpassword_stops :
    (∀ (decoder : Option String → SZOutcome) (ps : List String) (e : ZPErr),
        decoder none = SZOutcome.err e → isPasswordError e = false →
        tryExtractWithPasswords decoder ps =
          ({ success := false, error := some e.message }, [none]))
    ∧ (∀ (decoder : Option String → SZOutcome) (ps : List String) (i : Nat)
        (hi : i < ps.length) (e₀ e : ZPErr),
        decoder none = SZOutcome.err e₀ → isPasswordError e₀ = true →
        (∀ j (hj : j < i), ∃ ej,
          decoder (some (ps.get ⟨j, Nat.lt_trans hj hi⟩)) = SZOutcome.err ej ∧
          isPasswordError ej = true) →
        decoder (some (ps.get ⟨i, hi⟩)) = SZOutcome.err e →
        isPasswordError e = false →
        tryExtractWithPasswords decoder ps =
          ({ success := false, error := some e.message },
            none :: (ps.take (i+1)).map some)) := by
  constructor
  · intro decoder ps e h hpe
    unfold tryExtractWithPasswords
    rw [h]
    simp [hpe]
  · intro decoder ps i hi e₀ e h0 hp0 hprev he hpe
    unfold tryExtractWithPasswords
    rw [h0]
    simp only [hp0, Bool.not_true, Bool.false_eq_true, if_false]
    rw [tryPasswordLoop_stops_at_nonpassword decoder ps i hi e hprev he hpe]

/-- Witness for C2: the `corrupt.rar` scenario — a "corrupted"
classification on the no-password attempt stops everything after one
invocation despite three candidates being available. -/
theorem passwordRetry_nonpassword_stops_witness :
    tryExtractWithPasswords
        (fun _ => SZOutcome.err
          { message := "Failed to extract corrupt.rar", reason := some "Data Error: corrupted" })
        ["pw1", "pw2", "pw3"] =
      ({ success := false, error := some "Failed to extract corrupt.rar" }, [none]) :=
  passwordRetry_nonpassword_stops.1
    (fun _ => SZOutcome.err
      { message := "Failed to extract corrupt.rar", reason := some "Data Error: corrupted" })
    ["pw1", "pw2", "pw3"]
    { message := "Failed to extract corrupt.rar", reason := some "Data Error: corrupted" }
    rfl (by decide)

/-! ### The candidate password list (`_getAllAvailablePasswords`) -/

/-- One entry of the password library (`getAllPasswords` from
`src/utils/passwordStore.js`). -/
structure PasswordEntry where
  value : String
  usageCount : Nat
deriving DecidableEq, Repr

/-- `storedPasswords.sort((a, b) => b.usageCount - a.usageCount)`: sort the
library by descending historical usage count. -/
def sortByUsageDesc (stored : List PasswordEntry) : List PasswordEntry :=
  stored.mergeSort (fun a b => decide (b.usageCount ≤ a.usageCount))

/-- The `forEach` in `_getAllAvailablePasswords` (`extractor.js` lines
198-204): append each stored password value to the accumulated list unless
it is already present. -/
def dedupAppend (acc : List String) : List PasswordEntry → List String
  | [] => acc
  | e :: rest =>
    if e.value ∈ acc then dedupAppend acc rest
    else dedupAppend (acc ++ [e.value]) rest

/-- `ArchiveExtractor._getAllAvailablePasswords` (`extractor.js` lines
193-207): caller-supplied passwords, then the stored passwords sorted by
descending usage count with duplicates skipped, truncated to
`maxPasswordAttempts`. -/
def getAllAvailablePasswords (provided : List String) (stored : List PasswordEntry)
    (maxPasswordAttempts : Nat) : List String :=
  (dedupAppend provided (sortByUsageDesc stored)).take maxPasswordAttempts

/-- The library segment appended by `dedupAppend`: the stored values kept,
in order, when not already seen. -/
def libSegment (seen : List String) : List PasswordEntry → List String
  | [] => []
  | e :: rest =>
    if e.value ∈ seen then libSegment seen rest
    else e.value :: libSegment (seen ++ [e.value]) rest

theorem dedupAppend_eq_append_libSegment :
    ∀ (es : List PasswordEntry) (acc : List String),
      dedupAppend acc es = acc ++ libSegment acc es
  | [], acc => by simp [dedupAppend, libSegment]
  | e :: rest, acc => by
    unfold dedupAppend libSegment
    split
    · exact dedupAppend_eq_append_libSegment rest acc
    · rw [dedupAppend_eq_append_libSegment rest (acc ++ [e.value])]
      simp

/-- The library segment consists of values of a sublist of the stored
entries (in particular, it preserves their relative order). -/
theorem libSegment_sublist :
    ∀ (es : List PasswordEntry) (seen : List String),
      ∃ sel : List PasswordEntry,
        libSegment seen es = sel.map PasswordEntry.value ∧ sel.Sublist es
  | [], seen => ⟨[], by simp [libSegment]⟩
  | e :: rest, seen => by
    unfold libSegment
    split
    · rcases libSegment_sublist rest seen with ⟨sel, h1, h2⟩
      exact ⟨sel, h1, h2.cons e⟩
    · rcases libSegment_sublist rest (seen ++ [e.value]) with ⟨sel, h1, h2⟩
      exact ⟨e :: sel, by simp [h1], h2.cons₂ e⟩

theorem sortByUsageDesc_pairwise (stored : List PasswordEntry) :
    (sortByUsageDesc stored).Pairwise (fun a b => b.usageCount ≤ a.usageCount) := by
  have := @List.sorted_mergeSort PasswordEntry
    (fun a b : PasswordEntry => decide (b.usageCount ≤ a.usageCount))
    (by intro a b c; simp only [decide_eq_true_eq]; omega)
    (by intro a b; simp only [Bool.or_eq_true, decide_eq_true_eq]; omega)
    stored
  simpa [sortByUsageDesc] using this

/-- C5: the candidate list places all caller-supplied passwords, in their
given order, before every library password; the library passwords appear in
descending `usageCount` order (a sublist of the usage-sorted library, with
already-present values skipped); and the whole list is truncated to
`maxPasswordAttempts`. -/
theorem passwordCandidates_order (provided : List String) (stored : List PasswordEntry)
    (maxAttempts : Nat) :
    getAllAvailablePasswords provided stored maxAttempts
      = provided.take maxAttempts
        ++ (libSegment provided (sortByUsageDesc stored)).take (maxAttempts - provided.length)
    ∧ (∃ sel : List PasswordEntry,
        libSegment provided (sortByUsageDesc stored) = sel.map PasswordEntry.value
        ∧ sel.Sublist (sortByUsageDesc stored)
        ∧ sel.Pairwise (fun a b => b.usageCount ≤ a.usageCount))
    ∧ (getAllAvailablePasswords provided stored maxAttempts).length ≤ maxAttempts := by
  refine ⟨?_, ?_, ?_⟩
  · rw [getAllAvailablePasswords, dedupAppend_eq_append_libSegment,
      List.take_append_eq_append_take]
  · rcases libSegment_sublist (sortByUsageDesc stored) provided with ⟨sel, h1, h2⟩
    exact ⟨sel, h1, h2, (sortByUsageDesc_pairwise stored).sublist h2⟩
  · rw [getAllAvailablePasswords]
    exact List.length_take_le maxAttempts _

/-! ### The volume group resolver (`volumeHandler.js`)

The regex-based parts of `VolumeHandler` (`detectVolumePattern` and the
per-family `getBaseName` / `getVolumeNumber` extractors) are taken as
parameters of the embedding; the gap computation, the expected-filename
generator switch and the extraction gating are embedded concretely. -/

/-- The five volume pattern families of `VolumeHandler.volumePatterns`. -/
inductive VolPattern where
  | numeric
  | rar_part
  | rar_r
  | zip_z
  | sevenZ_numbered
deriving DecidableEq, Repr

/-- One input file of a volume group. -/
structure VolumeFile where
  fileName : String
  size : Nat
deriving DecidableEq, Repr

/-- One entry of `analysis.volumes`. -/
structure VolumeInfo where
  number : Nat
  fileName : String
  size : Nat
deriving DecidableEq, Repr

/-- JavaScript `String.prototype.padStart(n, c)`. -/
def padStart (s : String) (n : Nat) (c : Char) : String :=
  String.mk (List.replicate (n - s.length) c) ++ s

/-- Replace the first occurrence of `pat` in the list (JavaScript
`String.prototype.replace` with a string pattern). -/
def replaceFirstAux (pat repl : List Char) : List Char → List Char
  | [] => []
  | c :: rest =>
    if pat.isPrefixOf (c :: rest) then repl ++ (c :: rest).drop pat.length
    else c :: replaceFirstAux pat repl rest

/-- JavaScript `s.replace(pat, repl)` for a plain-string `pat`: replaces the
first occurrence only. -/
def replaceFirst (s pat repl : String) : String :=
  String.mk (replaceFirstAux pat.toList repl.toList s.toList)

/-- `VolumeHandler.generateExpectedFileName` (`volumeHandler.js` lines
154-176): the per-family expected filename of a missing volume number. -/
def generateExpectedFileName (baseName : String) (volumeNumber : Nat)
    (pattern : VolPattern) : String :=
  match pattern with
  | .numeric => baseName ++ "." ++ padStart (Nat.repr volumeNumber) 3 '0'
  | .rar_part => baseName ++ ".part" ++ padStart (Nat.repr volumeNumber) 2 '0' ++ ".rar"
  | .rar_r => replaceFirst baseName ".rar" "" ++ ".r" ++ padStart (Nat.repr (volumeNumber - 1)) 2 '0'
  | .zip_z => replaceFirst baseName ".zip" "" ++ ".z" ++ padStart (Nat.repr (volumeNumber - 1)) 2 '0'
  | .sevenZ_numbered => baseName ++ "." ++ padStart (Nat.repr volumeNumber) 3 '0'

/-- `Math.min(...nums)` over a list, `0` for the (unreachable) empty case. -/
def listMinD : List Nat → Nat
  | [] => 0
  | x :: xs => xs.foldl Nat.min x

/-- `Math.max(...nums)` over a list, `0` for the (unreachable) empty case. -/
def listMaxD : List Nat → Nat
  | [] => 0
  | x :: xs => xs.foldl Nat.max x

/-- The gap scan of `analyzeVolumeGroup` (`volumeHandler.js` lines
123-131): every integer between the minimum and maximum present volume
number that is not itself present. -/
def missingVolumeNumbers (nums : List Nat) : List Nat :=
  (List.range' (listMinD nums) (listMaxD nums + 1 - listMinD nums)).filter
    (fun i => decide (i ∉ nums))

/-- The result record of `analyzeVolumeGroup`.  (The `expectedPattern`
display string and, in the unknown-pattern branch, the raw echo of the
input files are omitted: nothing reads them.) -/
structure VolumeAnalysis where
  isValid : Bool
  error : Option String := none
  pattern : Option VolPattern := none
  baseName : String := ""
  volumes : List VolumeInfo := []
  missing : List (Nat × String) := []
  isComplete : Bool := false
  totalSize : Nat := 0
  firstVolumeSize : Nat := 0
deriving DecidableEq, Repr

/-- The `analysis.volumes` entries before sorting (`volumeHandler.js` lines
97-110). -/
def volumeInfosOf (getVolumeNumber : VolPattern → String → Nat) (pat : VolPattern)
    (volumeGroup : List VolumeFile) : List VolumeInfo :=
  volumeGroup.map (fun v =>
    { number := getVolumeNumber pat v.fileName, fileName := v.fileName, size := v.size })

/-- `analysis.volumes.sort((a, b) => a.number - b.number)`. -/
def sortedVolumesOf (getVolumeNumber : VolPattern → String → Nat) (pat : VolPattern)
    (volumeGroup : List VolumeFile) : List VolumeInfo :=
  (volumeInfosOf getVolumeNumber pat volumeGroup).mergeSort
    (fun a b => decide (a.number ≤ b.number))

/-- `volumeNumbers` in `analyzeVolumeGroup`. -/
def sortedNumbersOf (getVolumeNumber : VolPattern → String → Nat) (pat : VolPattern)
    (volumeGroup : List VolumeFile) : List Nat :=
  (sortedVolumesOf getVolumeNumber pat volumeGroup).map VolumeInfo.number

/-- The `analysis.missing` list: each gap number paired with its expected
filename. -/
def analysisMissing (getVolumeNumber : VolPattern → String → Nat) (pat : VolPattern)
    (volumeGroup : List VolumeFile) (baseName : String) : List (Nat × String) :=
  (missingVolumeNumbers (sortedNumbersOf getVolumeNumber pat volumeGroup)).map
    (fun i => (i, generateExpectedFileName baseName i pat))

/-- `VolumeHandler.analyzeVolumeGroup` (`volumeHandler.js` lines 68-137).
`detect`, `getBaseName` and `getVolumeNumber` stand for the regex-driven
pattern table; everything else follows the source: throw on an empty
group, report (not throw) an unknown pattern, then compute sorted volumes,
min/max, gaps with expected filenames, and completeness. -/
def analyzeVolumeGroup (detect : String → Option VolPattern)
    (getBaseName : VolPattern → String → String)
    (getVolumeNumber : VolPattern → String → Nat)
    (volumeGroup : List VolumeFile) : Except ZPErr VolumeAnalysis :=
  match volumeGroup with
  | [] => .error { message := "Missing volume file: No volume files provided", reason := none }
  | firstVolume :: rest =>
    match detect firstVolume.fileName with
    | none => .ok { isValid := false, error := some "Unknown volume pattern" }
    | some pat =>
      let baseName := getBaseName pat firstVolume.fileName
      let volumeNumbers := sortedNumbersOf getVolumeNumber pat (firstVolume :: rest)
      let firstVolumeSize :=
        match (volumeInfosOf getVolumeNumber pat (firstVolume :: rest)).reverse.find?
          (fun v => v.number == listMinD volumeNumbers) with
        | some v => v.size
        | none => 0
      let missing := analysisMissing getVolumeNumber pat (firstVolume :: rest) baseName
      .ok { isValid := true, pattern := some pat, baseName := baseName,
            volumes := sortedVolumesOf getVolumeNumber pat (firstVolume :: rest),
            missing := missing,
            isComplete := missing.isEmpty,
            totalSize := (firstVolume :: rest).foldl (fun acc v => acc + v.size) 0,
            firstVolumeSize := firstVolumeSize }

/-- Result record of `validateVolumeIntegrity` (the non-fatal volume-size
warning loop is console output only and is not modelled). -/
structure VolumeValidation where
  isValid : Bool
  error : Option String := none
  missingFiles : Option (List String) := none
deriving DecidableEq, Repr

/-- `VolumeHandler.validateVolumeIntegrity` (`volumeHandler.js` lines
181-222). -/
def validateVolumeIntegrity (detect : String → Option VolPattern)
    (getBaseName : VolPattern → String → String)
    (getVolumeNumber : VolPattern → String → Nat)
    (volumeGroup : List VolumeFile) : Except ZPErr VolumeValidation :=
  match analyzeVolumeGroup detect getBaseName getVolumeNumber volumeGroup with
  | .error e => .error e
  | .ok analysis =>
    if analysis.isValid = false then
      .ok { isValid := false, error := analysis.error }
    else if analysis.isComplete = false then
      .ok { isValid := false,
            error := some ("Missing volume files: "
              ++ String.intercalate ", " (analysis.missing.map Prod.snd)),
            missingFiles := some (analysis.missing.map Prod.snd) }
    else
      .ok { isValid := true }

/-- `VolumeHandler.getPrimaryVolume` (`volumeHandler.js` lines 227-248):
sort by volume number (name comparison when a pattern is missing) and take
the first element. -/
def getPrimaryVolume (detect : String → Option VolPattern)
    (getVolumeNumber : VolPattern → String → Nat)
    (volumeGroup : List VolumeFile) : Option VolumeFile :=
  match volumeGroup with
  | [] => none
  | _ :: _ =>
    (volumeGroup.mergeSort (fun a b =>
      match detect a.fileName, detect b.fileName with
      | some pa, some pb =>
        decide (getVolumeNumber pa a.fileName ≤ getVolumeNumber pb b.fileName)
      | _, _ => decide (a.fileName ≤ b.fileName))).head?

/-- The per-unit extraction result produced by `ArchiveExtractor`
(`ExtractionResult` without the wall-clock fields). -/
structure UnitResult where
  success : Bool
  outputPath : Option String := none
  extractedFiles : List String := []
  usedPassword : Option String := none
  error : Option String := none
deriving DecidableEq, Repr

/-- The tail of `_extractVolumeArchive`: hand the primary volume to
`_extractSingleArchive` (taken as a parameter together with its decoder
invocation count). -/
def extractVolumePrimary (detect : String → Option VolPattern)
    (getVolumeNumber : VolPattern → String → Nat)
    (extractSingle : VolumeFile → UnitResult × Nat)
    (volumeGroup : List VolumeFile) : UnitResult × Nat :=
  match getPrimaryVolume detect getVolumeNumber volumeGroup with
  | none => ({ success := false, error := some "Could not determine primary volume file" }, 0)
  | some primary => extractSingle primary

/-- `ArchiveExtractor._extractVolumeArchive` (`extractor.js` lines 92-120).
The second component counts decoder invocations (an exception from the
analysis is caught by `extractArchive` and becomes a failed result). -/
def extractVolumeArchive (detect : String → Option VolPattern)
    (getBaseName : VolPattern → String → String)
    (getVolumeNumber : VolPattern → String → Nat)
    (extractSingle : VolumeFile → UnitResult × Nat)
    (volumeGroup : List VolumeFile) : UnitResult × Nat :=
  match validateVolumeIntegrity detect getBaseName getVolumeNumber volumeGroup with
  | .error e => ({ success := false, error := some e.message }, 0)
  | .ok validation =>
    if validation.isValid = false then
      if (validation.missingFiles.getD []).isEmpty then
        extractVolumePrimary detect getVolumeNumber extractSingle volumeGroup
      else
        ({ success := false,
           error := some ("Cannot extract incomplete volume set. Missing files: "
             ++ String.intercalate ", " (validation.missingFiles.getD [])) }, 0)
    else
      extractVolumePrimary detect getVolumeNumber extractSingle volumeGroup

/-- The present volume numbers of a group, in input order. -/
def presentNumbers (getVolumeNumber : VolPattern → String → Nat) (pat : VolPattern)
    (volumeGroup : List VolumeFile) : List Nat :=
  volumeGroup.map (fun v => getVolumeNumber pat v.fileName)

/-! ### Lemmas about minima, maxima and the gap scan -/

theorem foldl_min_le_init : ∀ (xs : List Nat) (x : Nat), xs.foldl Nat.min x ≤ x
  | [], x => Nat.le_refl x
  | a :: xs, x =>
    Nat.le_trans (foldl_min_le_init xs (Nat.min x a)) (Nat.min_le_left x a)

theorem foldl_min_le_mem : ∀ (xs : List Nat) (x y : Nat), y ∈ xs → xs.foldl Nat.min x ≤ y
  | [], _, y, hy => by simp at hy
  | a :: xs, x, y, hy => by
    rcases List.mem_cons.mp hy with h | h
    · subst h
      exact Nat.le_trans (foldl_min_le_init xs (Nat.min x y)) (Nat.min_le_right x y)
    · exact foldl_min_le_mem xs (Nat.min x a) y h

theorem foldl_min_mem : ∀ (xs : List Nat) (x : Nat), xs.foldl Nat.min x ∈ x :: xs
  | [], x => by simp
  | a :: xs, x => by
    have h := foldl_min_mem xs (Nat.min x a)
    rcases List.mem_cons.mp h with h1 | h1
    · rw [List.foldl_cons, h1]
      have hma : x.min a = x ∨ x.min a = a := by
        rcases le_total x a with hc | hc
        · exact Or.inl (min_eq_left hc)
        · exact Or.inr (min_eq_right hc)
      rcases hma with hm | hm <;> simp [hm]
    · exact List.mem_cons.mpr (Or.inr (List.mem_cons.mpr (Or.inr h1)))

theorem le_foldl_max_init : ∀ (xs : List Nat) (x : Nat), x ≤ xs.foldl Nat.max x
  | [], x => Nat.le_refl x
  | a :: xs, x =>
    Nat.le_trans (Nat.le_max_left x a) (le_foldl_max_init xs (Nat.max x a))

theorem le_foldl_max_mem : ∀ (xs : List Nat) (x y : Nat), y ∈ xs → y ≤ xs.foldl Nat.max x
  | [], _, y, hy => by simp at hy
  | a :: xs, x, y, hy => by
    rcases List.mem_cons.mp hy with h | h
    · subst h
      exact Nat.le_trans (Nat.le_max_right x y) (le_foldl_max_init xs (Nat.max x y))
    · exact le_foldl_max_mem xs (Nat.max x a) y h

theorem foldl_max_mem : ∀ (xs : List Nat) (x : Nat), xs.foldl Nat.max x ∈ x :: xs
  | [], x => by simp
  | a :: xs, x => by
    have h := foldl_max_mem xs (Nat.max x a)
    rcases List.mem_cons.mp h with h1 | h1
    · rw [List.foldl_cons, h1]
      have hma : x.max a = x ∨ x.max a = a := by
        rcases le_total x a with hc | hc
        · exact Or.inr (max_eq_right hc)
        · exact Or.inl (max_eq_left hc)
      rcases hma with hm | hm <;> simp [hm]
    · exact List.mem_cons.mpr (Or.inr (List.mem_cons.mpr (Or.inr h1)))

theorem listMinD_le {nums : List Nat} {y : Nat} (hy : y ∈ nums) : listMinD nums ≤ y := by
  cases nums with
  | nil => simp at hy
  | cons x xs =>
    rcases List.mem_cons.mp hy with h | h
    · subst h
      exact foldl_min_le_init xs y
    · exact foldl_min_le_mem xs x y h

theorem listMinD_mem {nums : List Nat} (h : nums ≠ []) : listMinD nums ∈ nums := by
  cases nums with
  | nil => exact absurd rfl h
  | cons x xs => exact foldl_min_mem xs x

theorem le_listMaxD {nums : List Nat} {y : Nat} (hy : y ∈ nums) : y ≤ listMaxD nums := by
  cases nums with
  | nil => simp at hy
  | cons x xs =>
    rcases List.mem_cons.mp hy with h | h
    · subst h
      exact le_foldl_max_init xs y
    · exact le_foldl_max_mem xs x y h

theorem listMaxD_mem {nums : List Nat} (h : nums ≠ []) : listMaxD nums ∈ nums := by
  cases nums with
  | nil => exact absurd rfl h
  | cons x xs => exact foldl_max_mem xs x

theorem mem_missingVolumeNumbers {nums : List Nat} (h : nums ≠ []) {i : Nat} :
    i ∈ missingVolumeNumbers nums ↔
      listMinD nums ≤ i ∧ i ≤ listMaxD nums ∧ i ∉ nums := by
  have hminmax : listMinD nums ≤ listMaxD nums :=
    Nat.le_trans (listMinD_le (listMaxD_mem h)) (Nat.le_refl _)
  unfold missingVolumeNumbers
  rw [List.mem_filter, List.mem_range'_1, decide_eq_true_eq]
  constructor
  · rintro ⟨⟨h1, h2⟩, h3⟩
    exact ⟨h1, by omega, h3⟩
  · rintro ⟨h1, h2, h3⟩
    exact ⟨⟨h1, by omega⟩, h3⟩

theorem missingVolumeNumbers_nodup (nums : List Nat) :
    (missingVolumeNumbers nums).Nodup :=
  List.Nodup.filter _ (List.nodup_range' _ _)

theorem missingVolumeNumbers_eq_nil {nums : List Nat} (h : nums ≠ []) :
    missingVolumeNumbers nums = [] ↔
      ∀ i, listMinD nums ≤ i → i ≤ listMaxD nums → i ∈ nums := by
  rw [List.eq_nil_iff_forall_not_mem]
  constructor
  · intro hall i h1 h2
    by_contra hmem
    exact hall i ((mem_missingVolumeNumbers h).mpr ⟨h1, h2, hmem⟩)
  · intro hall i hmem
    rcases (mem_missingVolumeNumbers h).mp hmem with ⟨h1, h2, h3⟩
    exact h3 (hall i h1 h2)

theorem mem_sortedNumbersOf {getVolumeNumber : VolPattern → String → Nat}
    {pat : VolPattern} {volumeGroup : List VolumeFile} {i : Nat} :
    i ∈ sortedNumbersOf getVolumeNumber pat volumeGroup ↔
      i ∈ presentNumbers getVolumeNumber pat volumeGroup := by
  simp [sortedNumbersOf, sortedVolumesOf, volumeInfosOf, presentNumbers]

theorem sortedNumbersOf_ne_nil {getVolumeNumber : VolPattern → String → Nat}
    {pat : VolPattern} (v : VolumeFile) (vs : List VolumeFile) :
    sortedNumbersOf getVolumeNumber pat (v :: vs) ≠ [] := by
  intro h
  have := congrArg List.length h
  simp [sortedNumbersOf, sortedVolumesOf, volumeInfosOf] at this

/-- Unfolding `analyzeVolumeGroup` on a nonempty group whose first file
matches a pattern family. -/
theorem analyzeVolumeGroup_cons (detect : String → Option VolPattern)
    (gbn : VolPattern → String → String) (gvn : VolPattern → String → Nat)
    (pat : VolPattern) (v : VolumeFile) (vs : List VolumeFile)
    (hdet : detect v.fileName = some pat) :
    ∃ a, analyzeVolumeGroup detect gbn gvn (v :: vs) = Except.ok a
      ∧ a.isValid = true
      ∧ a.baseName = gbn pat v.fileName
      ∧ a.missing = analysisMissing gvn pat (v :: vs) (gbn pat v.fileName)
      ∧ a.isComplete = (analysisMissing gvn pat (v :: vs) (gbn pat v.fileName)).isEmpty := by
  unfold analyzeVolumeGroup
  simp only [hdet]
  exact ⟨_, rfl, rfl, rfl, rfl, rfl⟩

/-- C3: `analyzeVolumeGroup` reports `isComplete = true` with empty
`missing` exactly when the present volume numbers form a contiguous range
from the minimum to the maximum present (an integer sandwiched between two
present numbers is itself present); every absent integer in that range
appears exactly once in `missing`, paired with the family generator's
expected filename; and the generator rule gives `movie.002` for family
`numeric`, base `movie`, gap 2 and `base.r01` for family `rar_r`, gap
volume 2. -/
theorem volumeGaps_characterization :
    (∀ (detect : String → Option VolPattern) (gbn : VolPattern → String → String)
       (gvn : VolPattern → String → Nat) (pat : VolPattern) (v : VolumeFile)
       (vs : List VolumeFile), detect v.fileName = some pat →
      ∃ a, analyzeVolumeGroup detect gbn gvn (v :: vs) = Except.ok a
        ∧ (a.isComplete = true ↔ a.missing = [])
        ∧ (a.isComplete = true ↔
            ∀ i : Nat,
              (∃ lo ∈ presentNumbers gvn pat (v :: vs), lo ≤ i) →
              (∃ hi ∈ presentNumbers gvn pat (v :: vs), i ≤ hi) →
              i ∈ presentNumbers gvn pat (v :: vs))
        ∧ (∀ i : Nat,
            (∃ lo ∈ presentNumbers gvn pat (v :: vs), lo ≤ i) →
            (∃ hi ∈ presentNumbers gvn pat (v :: vs), i ≤ hi) →
            i ∉ presentNumbers gvn pat (v :: vs) →
            (a.missing.map Prod.fst).count i = 1 ∧
              (i, generateExpectedFileName (gbn pat v.fileName) i pat) ∈ a.missing)
        ∧ (∀ pr ∈ a.missing,
            pr.2 = generateExpectedFileName (gbn pat v.fileName) pr.1 pat ∧
            pr.1 ∉ presentNumbers gvn pat (v :: vs)))
    ∧ generateExpectedFileName "movie" 2 VolPattern.numeric = "movie.002"
    ∧ generateExpectedFileName "base.rar" 2 VolPattern.rar_r = "base.r01" := by
  refine ⟨?_, by decide, by decide⟩
  intro detect gbn gvn pat v vs hdet
  rcases analyzeVolumeGroup_cons detect gbn gvn pat v vs hdet with
    ⟨a, hok, hvalid, hbase, hmiss, hcomp⟩
  have hne : sortedNumbersOf gvn pat (v :: vs) ≠ [] := sortedNumbersOf_ne_nil v vs
  -- bridge between the sandwich formulation over input-order numbers and
  -- min/max bounds over the sorted numbers
  have hbridge : ∀ i : Nat,
      ((∃ lo ∈ presentNumbers gvn pat (v :: vs), lo ≤ i) ∧
       (∃ hi ∈ presentNumbers gvn pat (v :: vs), i ≤ hi)) ↔
      (listMinD (sortedNumbersOf gvn pat (v :: vs)) ≤ i ∧
       i ≤ listMaxD (sortedNumbersOf gvn pat (v :: vs))) := by
    intro i
    constructor
    · rintro ⟨⟨lo, hlo, hloi⟩, ⟨hi, hhi, hihi⟩⟩
      exact ⟨Nat.le_trans (listMinD_le (mem_sortedNumbersOf.mpr hlo)) hloi,
             Nat.le_trans hihi (le_listMaxD (mem_sortedNumbersOf.mpr hhi))⟩
    · rintro ⟨h1, h2⟩
      exact ⟨⟨_, mem_sortedNumbersOf.mp (listMinD_mem hne), h1⟩,
             ⟨_, mem_sortedNumbersOf.mp (listMaxD_mem hne), h2⟩⟩
  have hmissmap : a.missing.map Prod.fst =
      missingVolumeNumbers (sortedNumbersOf gvn pat (v :: vs)) := by
    rw [hmiss]
    unfold analysisMissing
    rw [List.map_map]
    exact List.map_id _
  refine ⟨a, hok, ?_, ?_, ?_, ?_⟩
  · rw [hcomp, hmiss, List.isEmpty_iff]
  · rw [hcomp, List.isEmpty_iff]
    unfold analysisMissing
    rw [List.map_eq_nil_iff, missingVolumeNumbers_eq_nil hne]
    constructor
    · intro hall i hlo hhi
      rcases (hbridge i).mp ⟨hlo, hhi⟩ with ⟨h1, h2⟩
      exact mem_sortedNumbersOf.mp (hall i h1 h2)
    · intro hall i h1 h2
      exact mem_sortedNumbersOf.mpr (hall i
        ⟨_, mem_sortedNumbersOf.mp (listMinD_mem hne), h1⟩
        ⟨_, mem_sortedNumbersOf.mp (listMaxD_mem hne), h2⟩)
  · intro i hlo hhi hnotin
    have hmem : i ∈ missingVolumeNumbers (sortedNumbersOf gvn pat (v :: vs)) := by
      rcases (hbridge i).mp ⟨hlo, hhi⟩ with ⟨h1, h2⟩
      exact (mem_missingVolumeNumbers hne).mpr
        ⟨h1, h2, fun hc => hnotin (mem_sortedNumbersOf.mp hc)⟩
    constructor
    · rw [hmissmap]
      exact List.count_eq_one_of_mem (missingVolumeNumbers_nodup _) hmem
    · rw [hmiss]
      unfold analysisMissing
      exact List.mem_map.mpr ⟨i, hmem, rfl⟩
  · intro pr hpr
    rw [hmiss] at hpr
    unfold analysisMissing at hpr
    rcases List.mem_map.mp hpr with ⟨i, hi, rfl⟩
    refine ⟨rfl, ?_⟩
    rcases (mem_missingVolumeNumbers hne).mp hi with ⟨_, _, h3⟩
    exact fun hc => h3 (mem_sortedNumbersOf.mpr hc)

/-- Concrete `numeric` volume group `movie.001` / `movie.003` used as a
witness input. -/
def wDetect : String → Option VolPattern := fun _ => some VolPattern.numeric

def wGbn : VolPattern → String → String := fun _ _ => "movie"

def wGvn : VolPattern → String → Nat := fun _ s => if s = "movie.001" then 1 else 3

def wGroup1 : VolumeFile := { fileName := "movie.001", size := 10 }

def wGroup3 : VolumeFile := { fileName := "movie.003", size := 10 }

/-- Witness for C3: the group `movie.001`, `movie.003` of family `numeric`. -/
theorem volumeGaps_characterization_witness :
    ∃ a, analyzeVolumeGroup wDetect wGbn wGvn [wGroup1, wGroup3] = Except.ok a
      ∧ (a.isComplete = true ↔ a.missing = [])
      ∧ (a.isComplete = true ↔
          ∀ i : Nat,
            (∃ lo ∈ presentNumbers wGvn VolPattern.numeric [wGroup1, wGroup3], lo ≤ i) →
            (∃ hi ∈ presentNumbers wGvn VolPattern.numeric [wGroup1, wGroup3], i ≤ hi) →
            i ∈ presentNumbers wGvn VolPattern.numeric [wGroup1, wGroup3])
      ∧ (∀ i : Nat,
          (∃ lo ∈ presentNumbers wGvn VolPattern.numeric [wGroup1, wGroup3], lo ≤ i) →
          (∃ hi ∈ presentNumbers wGvn VolPattern.numeric [wGroup1, wGroup3], i ≤ hi) →
          i ∉ presentNumbers wGvn VolPattern.numeric [wGroup1, wGroup3] →
          (a.missing.map Prod.fst).count i = 1 ∧
            (i, generateExpectedFileName (wGbn VolPattern.numeric wGroup1.fileName) i
              VolPattern.numeric) ∈ a.missing)
      ∧ (∀ pr ∈ a.missing,
          pr.2 = generateExpectedFileName (wGbn VolPattern.numeric wGroup1.fileName) pr.1
            VolPattern.numeric ∧
          pr.1 ∉ presentNumbers wGvn VolPattern.numeric [wGroup1, wGroup3]) :=
  volumeGaps_characterization.1 wDetect wGbn wGvn VolPattern.numeric wGroup1 [wGroup3] rfl

/-- From a valid analysis, completeness is exactly emptiness of the gap
list. -/
theorem analyzeVolumeGroup_complete_iff (detect : String → Option VolPattern)
    (gbn : VolPattern → String → String) (gvn : VolPattern → String → Nat)
    (group : List VolumeFile) (a : VolumeAnalysis)
    (hok : analyzeVolumeGroup detect gbn gvn group = Except.ok a)
    (hvalid : a.isValid = true) :
    a.isComplete = a.missing.isEmpty := by
  cases group with
  | nil => simp [analyzeVolumeGroup] at hok
  | cons v vs =>
    unfold analyzeVolumeGroup at hok
    cases hdet : detect v.fileName with
    | none =>
      simp only [hdet, Except.ok.injEq] at hok
      rw [← hok] at hvalid
      simp at hvalid
    | some pat =>
      simp only [hdet, Except.ok.injEq] at hok
      rw [← hok]

/-- C4 (amended): for every non-empty group the analysis itself never
fails — it only reports (the source throws `MissingVolume` on an empty
group); the missing-volume extraction failure is produced exactly when
extraction is attempted on a group whose gap list is non-empty, naming the
missing files, with zero decoder invocations; in every other case
(complete group, or unknown pattern) extraction proceeds to the primary
volume. -/
theorem missingVolume_gating :
    (∀ (detect : String → Option VolPattern) (gbn : VolPattern → String → String)
       (gvn : VolPattern → String → Nat) (v : VolumeFile) (vs : List VolumeFile),
       ∃ a, analyzeVolumeGroup detect gbn gvn (v :: vs) = Except.ok a)
    ∧ (∀ (detect : String → Option VolPattern) (gbn : VolPattern → String → String)
        (gvn : VolPattern → String → Nat)
        (extractSingle : VolumeFile → UnitResult × Nat)
        (group : List VolumeFile) (a : VolumeAnalysis),
        analyzeVolumeGroup detect gbn gvn group = Except.ok a →
        a.isValid = true → a.missing ≠ [] →
        extractVolumeArchive detect gbn gvn extractSingle group =
          ({ success := false,
             error := some ("Cannot extract incomplete volume set. Missing files: "
               ++ String.intercalate ", " (a.missing.map Prod.snd)) }, 0))
    ∧ (∀ (detect : String → Option VolPattern) (gbn : VolPattern → String → String)
        (gvn : VolPattern → String → Nat)
        (extractSingle : VolumeFile → UnitResult × Nat)
        (group : List VolumeFile) (a : VolumeAnalysis),
        analyzeVolumeGroup detect gbn gvn group = Except.ok a →
        a.isValid = true → a.missing = [] →
        extractVolumeArchive detect gbn gvn extractSingle group =
          extractVolumePrimary detect gvn extractSingle group)
    ∧ (∀ (detect : String → Option VolPattern) (gbn : VolPattern → String → String)
        (gvn : VolPattern → String → Nat)
        (extractSingle : VolumeFile → UnitResult × Nat)
        (group : List VolumeFile) (a : VolumeAnalysis),
        analyzeVolumeGroup detect gbn gvn group = Except.ok a →
        a.isValid = false →
        extractVolumeArchive detect gbn gvn extractSingle group =
          extractVolumePrimary detect gvn extractSingle group) := by
  refine ⟨?_, ?_, ?_, ?_⟩
  · intro detect gbn gvn v vs
    unfold analyzeVolumeGroup
    cases hdet : detect v.fileName with
    | none =>
      simp only [hdet]
      exact ⟨_, rfl⟩
    | some pat =>
      simp only [hdet]
      exact ⟨_, rfl⟩
  · intro detect gbn gvn extractSingle group a hok hvalid hne
    obtain ⟨x, xs, hx⟩ := List.exists_cons_of_ne_nil hne
    have hcomp := analyzeVolumeGroup_complete_iff detect gbn gvn group a hok hvalid
    have hcompf : a.isComplete = false := by rw [hcomp, hx]; rfl
    unfold extractVolumeArchive validateVolumeIntegrity
    rw [hok]
    simp only [hvalid, hcompf]
    simp [hx]
  · intro detect gbn gvn extractSingle group a hok hvalid hmiss
    have hcomp := analyzeVolumeGroup_complete_iff detect gbn gvn group a hok hvalid
    have hcompt : a.isComplete = true := by rw [hcomp, hmiss]; rfl
    clear hcomp
    unfold extractVolumeArchive validateVolumeIntegrity
    rw [hok]
    simp [hvalid, hcompt]
  · intro detect gbn gvn extractSingle group a hok hinvalid
    unfold extractVolumeArchive validateVolumeIntegrity
    rw [hok]
    simp [hinvalid]

/-- Counterexample for C4 as stated: on an empty group the analysis does
fail — it raises the `MissingVolume` error rather than reporting. -/
theorem analyzeVolumeGroup_empty_error :
    analyzeVolumeGroup wDetect wGbn wGvn [] =
      Except.error { message := "Missing volume file: No volume files provided", reason := none } :=
  rfl

/-- Witness for C4: the incomplete group `movie.001`, `movie.003` is
rejected before any decoder invocation, naming `movie.002`. -/
theorem missingVolume_gating_witness :
    extractVolumeArchive wDetect wGbn wGvn (fun _ => ({ success := true }, 1))
        [wGroup1, wGroup3] =
      ({ success := false,
         error := some "Cannot extract incomplete volume set. Missing files: movie.002" }, 0) := by
  rcases analyzeVolumeGroup_cons wDetect wGbn wGvn VolPattern.numeric wGroup1 [wGroup3] rfl with
    ⟨a, hok, hvalid, hbase, hmiss, hcomp⟩
  have h1 : sortedVolumesOf wGvn VolPattern.numeric [wGroup1, wGroup3]
      = volumeInfosOf wGvn VolPattern.numeric [wGroup1, wGroup3] := by
    unfold sortedVolumesOf
    apply List.mergeSort_of_sorted
    simp [volumeInfosOf, wGvn, wGroup1, wGroup3]
  have h2 : sortedNumbersOf wGvn VolPattern.numeric [wGroup1, wGroup3] = [1, 3] := by
    unfold sortedNumbersOf
    rw [h1]
    rfl
  have h3 : analysisMissing wGvn VolPattern.numeric [wGroup1, wGroup3]
      (wGbn VolPattern.numeric wGroup1.fileName) = [(2, "movie.002")] := by
    unfold analysisMissing
    rw [h2]
    rfl
  have hm : a.missing = [(2, "movie.002")] := by rw [hmiss, h3]
  have hres := missingVolume_gating.2.1 wDetect wGbn wGvn
    (fun _ => ({ success := true }, 1)) [wGroup1, wGroup3] a hok hvalid
    (by rw [hm]; simp)
  rw [hm] at hres
  exact hres

/-! ### Batch extraction (`extractMultipleArchives`, `generateSummary`) -/

/-- The identifying fields of an archive unit handed to the extractor. -/
structure ArchiveFile where
  fileName : String
  filePath : String
deriving DecidableEq, Repr

/-- A completed `ExtractionResult` (wall-clock fields omitted). -/
structure MultiResult where
  archiveFile : ArchiveFile
  success : Bool
  outputPath : Option String := none
  extractedFiles : List String := []
  usedPassword : Option String := none
  error : Option String := none
deriving DecidableEq, Repr

/-- `ArchiveExtractor.extractMultipleArchives` (`extractor.js` lines
173-188): one `extractArchive` call per unit; a thrown error becomes a
failed result for that unit and the loop continues.  `extract1` stands for
`extractArchive` (`Except.error` = a thrown exception). -/
def extractMultipleArchives (extract1 : ArchiveFile → Except String MultiResult)
    (archiveFiles : List ArchiveFile) : List MultiResult :=
  archiveFiles.foldl (fun results archiveFile =>
    match extract1 archiveFile with
    | .ok r => results ++ [r]
    | .error msg =>
      results ++ [{ archiveFile := archiveFile, success := false, error := some msg }]) []

/-- The extraction summary of `generateSummary` (`extractor.js` lines
338-356), without the wall-clock total. -/
structure Summary where
  totalFiles : Nat
  successCount : Nat
  failedCount : Nat
  totalExtractedFiles : Nat
  failedFiles : List (String × Option String)
deriving DecidableEq, Repr

/-- `ArchiveExtractor.generateSummary`. -/
def generateSummary (results : List MultiResult) : Summary :=
  { totalFiles := results.length,
    successCount := (results.filter (fun r => r.success)).length,
    failedCount := (results.filter (fun r => !r.success)).length,
    totalExtractedFiles := (results.filter (fun r => r.success)).foldl
      (fun sum r => sum + r.extractedFiles.length) 0,
    failedFiles := (results.filter (fun r => !r.success)).map
      (fun r => (r.archiveFile.fileName, r.error)) }

theorem extractMultipleArchives_foldl_append
    (extract1 : ArchiveFile → Except String MultiResult) :
    ∀ (files : List ArchiveFile) (acc : List MultiResult),
      files.foldl (fun results archiveFile =>
        match extract1 archiveFile with
        | .ok r => results ++ [r]
        | .error msg =>
          results ++ [{ archiveFile := archiveFile, success := false, error := some msg }]) acc
      = acc ++ files.map (fun f =>
          match extract1 f with
          | .ok r => r
          | .error msg => { archiveFile := f, success := false, error := some msg })
  | [], acc => by simp
  | f :: fs, acc => by
    cases h : extract1 f with
    | ok r =>
      simp only [List.foldl_cons, List.map_cons, h]
      simp [extractMultipleArchives_foldl_append extract1 fs]
    | error msg =>
      simp only [List.foldl_cons, List.map_cons, h]
      simp [extractMultipleArchives_foldl_append extract1 fs]

theorem length_filter_partition (results : List MultiResult) :
    (results.filter (fun r => r.success)).length
      + (results.filter (fun r => !r.success)).length = results.length := by
  induction results with
  | nil => rfl
  | cons r rs ih =>
    cases h : r.success <;> simp [List.filter_cons, h] <;> omega

/-- C9: batch extraction yields exactly one result per unit and never
aborts on a failing unit — a thrown per-unit error becomes a failure
result (`success = false` with the error message) while every other unit
is still attempted (the result list is the pointwise image of the input
list); the summary's success and failure counts partition the total and
`failedFiles` lists the per-file reasons. -/
theorem batchExtraction_isolation :
    (∀ (extract1 : ArchiveFile → Except String MultiResult) (files : List ArchiveFile),
      extractMultipleArchives extract1 files = files.map (fun f =>
        match extract1 f with
        | .ok r => r
        | .error msg => { archiveFile := f, success := false, error := some msg }))
    ∧ (∀ (extract1 : ArchiveFile → Except String MultiResult) (files : List ArchiveFile),
        (extractMultipleArchives extract1 files).length = files.length)
    ∧ (∀ results : List MultiResult,
        (generateSummary results).successCount + (generateSummary results).failedCount
          = (generateSummary results).totalFiles)
    ∧ (∀ results : List MultiResult,
        (generateSummary results).failedFiles =
          (results.filter (fun r => !r.success)).map
            (fun r => (r.archiveFile.fileName, r.error))) := by
  refine ⟨?_, ?_, ?_, ?_⟩
  · intro extract1 files
    unfold extractMultipleArchives
    rw [extractMultipleArchives_foldl_append extract1 files []]
    simp
  · intro extract1 files
    unfold extractMultipleArchives
    rw [extractMultipleArchives_foldl_append extract1 files []]
    simp
  · intro results
    exact length_filter_partition results
  · intro results
    rfl

/-! ### Output directory selection (`_createArchiveOutputDir`)

The candidate directory names use JavaScript template interpolation of the
counter, i.e. its decimal representation; we first prove `Nat.repr`
injective so distinct counters give distinct candidate paths. -/

/-- Value of a decimal digit character (inverse of `Nat.digitChar` below
`10`). -/
def charVal (c : Char) : Nat :=
  if c = '0' then 0 else if c = '1' then 1 else if c = '2' then 2 else
  if c = '3' then 3 else if c = '4' then 4 else if c = '5' then 5 else
  if c = '6' then 6 else if c = '7' then 7 else if c = '8' then 8 else 9

/-- Decimal value of a digit string, most significant first. -/
def digitsVal (l : List Char) : Nat :=
  l.foldl (fun a c => 10 * a + charVal c) 0

theorem charVal_digitChar : ∀ d : Nat, d < 10 → charVal (Nat.digitChar d) = d := by decide

theorem digitsVal_append (l : List Char) (c : Char) :
    digitsVal (l ++ [c]) = 10 * digitsVal l + charVal c := by
  simp [digitsVal, List.foldl_append]

theorem toDigitsCore_ten_append : ∀ (fuel n : Nat) (ds : List Char),
    Nat.toDigitsCore 10 fuel n ds = Nat.toDigitsCore 10 fuel n [] ++ ds
  | 0, n, ds => by simp [Nat.toDigitsCore]
  | fuel + 1, n, ds => by
    unfold Nat.toDigitsCore
    simp only
    split
    · simp
    · rw [toDigitsCore_ten_append fuel (n / 10) (Nat.digitChar (n % 10) :: ds),
        toDigitsCore_ten_append fuel (n / 10) [Nat.digitChar (n % 10)]]
      simp

theorem digitsVal_toDigitsCore : ∀ (fuel n : Nat), n < fuel →
    digitsVal (Nat.toDigitsCore 10 fuel n []) = n
  | 0, n, h => by omega
  | fuel + 1, n, h => by
    unfold Nat.toDigitsCore
    simp only
    split
    · rename_i h0
      have hn : n % 10 = n := by omega
      have hc := charVal_digitChar n (by omega)
      simp [digitsVal, hn, hc]
    · rename_i h0
      rw [toDigitsCore_ten_append fuel (n / 10) [Nat.digitChar (n % 10)],
        digitsVal_append,
        digitsVal_toDigitsCore fuel (n / 10) (by omega),
        charVal_digitChar (n % 10) (by omega)]
      omega

theorem Nat_repr_inj : ∀ {m n : Nat}, Nat.repr m = Nat.repr n → m = n := by
  intro m n h
  have h2 : Nat.toDigits 10 m = Nat.toDigits 10 n := by
    have := congrArg String.data h
    simpa [Nat.repr, List.asString] using this
  have hm := digitsVal_toDigitsCore (m + 1) m (Nat.lt_succ_self m)
  have hn := digitsVal_toDigitsCore (n + 1) n (Nat.lt_succ_self n)
  unfold Nat.toDigits at h2
  rw [← hm, ← hn, h2]

/-- `path.join(baseOutputDir, name)`. -/
def joinPath (base name : String) : String := base ++ "/" ++ name

/-- The `k`-th directory name tried by `_createArchiveOutputDir`:
`baseOutputDir/archiveName` first, then `baseOutputDir/archiveName(k)`. -/
def candidate (base name : String) (k : Nat) : String :=
  if k = 0 then joinPath base name
  else joinPath base (name ++ "(" ++ Nat.repr k ++ ")")

/-- The `while (fs.existsSync(outputDir))` loop of
`_createArchiveOutputDir` (`extractor.js` lines 307-311), with explicit
fuel; `existing` is the set of paths that existed before the call (the
loop only reads the filesystem). -/
def createOutputDirLoop (existing : List String) (base name : String) :
    Nat → String → Nat → Option String
  | 0, _, _ => none
  | fuel + 1, cur, counter =>
    if cur ∈ existing then
      createOutputDirLoop existing base name fuel
        (joinPath base (name ++ "(" ++ Nat.repr counter ++ ")")) (counter + 1)
    else some cur

/-- `ArchiveExtractor._createArchiveOutputDir` (`extractor.js` lines
302-315): try `baseOutputDir/archiveName`, then append `(1)`, `(2)`, …
until a non-existing directory is found (the fuel `existing.length + 1`
always suffices, as proved below). -/
def createArchiveOutputDir (existing : List String) (baseOutputDir archiveName : String) :
    Option String :=
  createOutputDirLoop existing baseOutputDir archiveName (existing.length + 1)
    (joinPath baseOutputDir archiveName) 1

theorem candidate_injective (base name : String) :
    Function.Injective (candidate base name) := by
  have hdata : ∀ s t : String, (s ++ t).data = s.data ++ t.data := fun s t => rfl
  intro j k h
  unfold candidate joinPath at h
  rcases Nat.eq_zero_or_pos j with hj | hj <;> rcases Nat.eq_zero_or_pos k with hk | hk
  · omega
  · subst hj
    rw [if_pos rfl, if_neg (by omega)] at h
    have hlen := congrArg (fun s => s.data.length) h
    simp [hdata] at hlen
  · subst hk
    rw [if_neg (by omega), if_pos rfl] at h
    have hlen := congrArg (fun s => s.data.length) h
    simp [hdata] at hlen
  · rw [if_neg (by omega), if_neg (by omega)] at h
    have hd := congrArg String.data h
    simp only [hdata] at hd
    have h1 := List.append_cancel_left hd
    have h2 := List.append_cancel_right h1
    have h3 := List.append_cancel_left h2
    exact Nat_repr_inj (String.ext h3)

theorem createOutputDirLoop_spec (existing : List String) (base name : String) :
    ∀ (fuel counter : Nat) (d : String), 1 ≤ counter →
      createOutputDirLoop existing base name fuel
        (candidate base name (counter - 1)) counter = some d →
      d ∉ existing ∧
      ∃ k, counter - 1 ≤ k ∧ d = candidate base name k ∧
        ∀ j, counter - 1 ≤ j → j < k → candidate base name j ∈ existing
  | 0, counter, d, hc, h => by simp [createOutputDirLoop] at h
  | fuel + 1, counter, d, hc, h => by
    unfold createOutputDirLoop at h
    split at h
    · rename_i hmem
      have hcand : joinPath base (name ++ "(" ++ Nat.repr counter ++ ")")
          = candidate base name ((counter + 1) - 1) := by
        unfold candidate
        rw [if_neg (by omega)]
        simp
      rw [hcand] at h
      rcases createOutputDirLoop_spec existing base name fuel (counter + 1) d
        (by omega) h with ⟨hnot, k, hk1, hk2, hk3⟩
      refine ⟨hnot, k, by omega, hk2, ?_⟩
      intro j hj1 hj2
      rcases Nat.eq_or_lt_of_le hj1 with hj | hj
      · rw [hj] at hmem
        exact hmem
      · exact hk3 j (by omega) hj2
    · rename_i hmem
      cases h
      exact ⟨hmem, counter - 1, Nat.le_refl _, rfl, fun j hj1 hj2 => by omega⟩

theorem createOutputDirLoop_total (existing : List String) (base name : String) :
    ∀ (fuel counter : Nat), 1 ≤ counter →
      (∃ k, counter - 1 ≤ k ∧ k < counter - 1 + fuel ∧ candidate base name k ∉ existing) →
      ∃ d, createOutputDirLoop existing base name fuel
        (candidate base name (counter - 1)) counter = some d
  | 0, counter, hc, hex => by
    rcases hex with ⟨k, h1, h2, _⟩
    omega
  | fuel + 1, counter, hc, hex => by
    unfold createOutputDirLoop
    split
    · rename_i hmem
      have hcand : joinPath base (name ++ "(" ++ Nat.repr counter ++ ")")
          = candidate base name ((counter + 1) - 1) := by
        unfold candidate
        rw [if_neg (by omega)]
        simp
      rw [hcand]
      apply createOutputDirLoop_total existing base name fuel (counter + 1) (by omega)
      rcases hex with ⟨k, h1, h2, h3⟩
      refine ⟨k, ?_, by omega, h3⟩
      rcases Nat.eq_or_lt_of_le h1 with hj | hj
      · rw [← hj] at h3
        exact absurd hmem h3
      · omega
    · exact ⟨_, rfl⟩

theorem exists_free_candidate (existing : List String) (base name : String) :
    ∃ k, k ≤ existing.length ∧ candidate base name k ∉ existing := by
  by_contra hcon
  push_neg at hcon
  have hnodup : ((List.range (existing.length + 1)).map (candidate base name)).Nodup :=
    (List.nodup_range _).map (candidate_injective base name)
  have hlen : ((List.range (existing.length + 1)).map (candidate base name)).length
      = existing.length + 1 := by simp
  have hsubset : ((List.range (existing.length + 1)).map (candidate base name)).toFinset
      ⊆ existing.toFinset := by
    intro x hx
    rw [List.mem_toFinset] at hx ⊢
    rcases List.mem_map.mp hx with ⟨k, hk, rfl⟩
    have hk' : k < existing.length + 1 := List.mem_range.mp hk
    exact hcon k (by omega)
  have h1 := List.toFinset_card_of_nodup hnodup
  have h2 := Finset.card_le_card hsubset
  have h3 : existing.toFinset.card ≤ existing.length := List.toFinset_card_le existing
  omega

/-- C10: the chosen per-archive output directory never coincides with a
pre-existing path: the extractor returns the first candidate —
`baseOutputDir/archiveName`, then with suffixes `(1)`, `(2)`, … — whose
directory does not exist, and every earlier candidate (including the
unsuffixed name whenever a suffix is used) did exist. -/
theorem outputDir_fresh (existing : List String) (base name : String) :
    ∃ d, createArchiveOutputDir existing base name = some d
      ∧ d ∉ existing
      ∧ ∃ k, d = candidate base name k
        ∧ ∀ j, j < k → candidate base name j ∈ existing := by
  obtain ⟨k, hk1, hk2⟩ := exists_free_candidate existing base name
  obtain ⟨d, hd⟩ := createOutputDirLoop_total existing base name (existing.length + 1) 1
    (Nat.le_refl 1) ⟨k, by omega, by omega, hk2⟩
  have hinit : candidate base name (1 - 1) = joinPath base name := by
    unfold candidate
    rw [if_pos rfl]
  rw [hinit] at hd
  have hspec := createOutputDirLoop_spec existing base name (existing.length + 1) 1 d
    (Nat.le_refl 1) (by rw [hinit]; exact hd)
  rcases hspec with ⟨hnot, k', _, hk'2, hk'3⟩
  exact ⟨d, hd, hnot, k', hk'2, fun j hj => hk'3 j (by omega) hj⟩

/-! ### The nested extraction orchestrator (`NestedArchiveProcessor`)

The filesystem is abstracted as a tree: each candidate nested archive has
a name, its byte content (standing for the bytes the SHA-256 fingerprint
is computed over — two files collide exactly when bytes and name agree),
and either `none` (the decode of this unit fails) or `some dir` (decode
succeeds and rescanning its output directory finds `dir`).  `scanForArchives`
on a directory is thereby the identity.  The `PState.extracted` field is
proof-only instrumentation recording the fingerprint of every unit whose
extraction is actually started; the source has no such field. -/

/-- A candidate nested archive: name, content bytes, and the outcome of
extracting it (`some` = the archives found in its output directory). -/
inductive ANode where
  | mk (name : String) (content : String) (result : Option (List ANode))

/-- The `cleanupMode` option: `'always' | 'success' | 'never'`. -/
inductive CleanupMode where
  | always
  | success
  | never
deriving DecidableEq, Repr

/-- The construction options of `NestedArchiveProcessor`. -/
structure NestedOptions where
  maxDepth : Nat
  maxTotalArchives : Nat
  enableCycleDetection : Bool
  cleanupMode : CleanupMode
deriving DecidableEq, Repr

/-- The processor state: cycle-detection structures and statistics
(`archiveProcessor.js` lines 345-355), plus the ghost `extracted` trace. -/
structure PState where
  processedHashes : List (String × String)
  currentPath : List String
  totalProcessed : Nat
  successfulExtractions : Nat
  failedExtractions : Nat
  cyclesDetected : Nat
  maxDepthReached : Nat
  cleanedFiles : Nat
  extracted : List (String × String)
deriving DecidableEq, Repr

/-- The state created by the constructor / `reset()`. -/
def initialPState : PState :=
  { processedHashes := [], currentPath := [], totalProcessed := 0,
    successfulExtractions := 0, failedExtractions := 0, cyclesDetected := 0,
    maxDepthReached := 0, cleanedFiles := 0, extracted := [] }

/-- `NestedArchiveProcessor._detectCycle` (`archiveProcessor.js` lines
484-515): the content fingerprint is the (bytes, name) pair; a hit in the
processed set or on the current recursion path is a cycle (state
untouched); otherwise the fingerprint is recorded. -/
def detectCycle (enable : Bool) (st : PState) (name content : String) :
    Bool × PState :=
  if !enable then (false, st)
  else if (content, name) ∈ st.processedHashes then (true, st)
  else if name ∈ st.currentPath then (true, st)
  else (false, { st with processedHashes := st.processedHashes ++ [(content, name)] })

/-- One node of the result tree: nested-archive name, success flag,
`nestingLevel`, and the recursively produced child results. -/
inductive NRes where
  | mk (name : String) (success : Bool) (nestingLevel : Nat) (children : List NRes)

mutual

/-- All `nestingLevel` values in a result tree. -/
def NRes.levels : NRes → List Nat
  | .mk _ _ lvl cs => lvl :: NRes.levelsList cs

def NRes.levelsList : List NRes → List Nat
  | [] => []
  | r :: rs => NRes.levels r ++ NRes.levelsList rs

end

mutual

/-- `NestedArchiveProcessor.processNestedArchives` (`archiveProcessor.js`
lines 361-444): the two entry guards (depth cap, which also updates
`maxDepthReached`; total-archives quota), then the loop over the archives
found in `extractedDir`. -/
def processNestedArchives (opts : NestedOptions) (st : PState)
    (dir : List ANode) (depth : Nat) : List NRes × PState :=
  if opts.maxDepth ≤ depth then
    ([], { st with maxDepthReached := Nat.max st.maxDepthReached depth })
  else if opts.maxTotalArchives ≤ st.totalProcessed then
    ([], st)
  else
    processFound opts st dir depth
termination_by 2 * sizeOf dir + 1

/-- The `for (const nestedArchive of foundArchives)` loop body
(`archiveProcessor.js` lines 385-438): cycle check and skip, push onto the
path, extract, on success recurse (only when `depth < maxDepth - 1`) and
clean up, pop the path, continue with the next sibling. -/
def processFound (opts : NestedOptions) (st : PState)
    (dir : List ANode) (depth : Nat) : List NRes × PState :=
  match dir with
  | [] => ([], st)
  | ANode.mk aname acontent aresult :: rest =>
    match detectCycle opts.enableCycleDetection st aname acontent with
    | (true, st1) =>
      processFound opts { st1 with cyclesDetected := st1.cyclesDetected + 1 } rest depth
    | (false, st1) =>
      let st2 := { st1 with
        currentPath := st1.currentPath ++ [aname],
        totalProcessed := st1.totalProcessed + 1,
        extracted := st1.extracted ++ [(acontent, aname)] }
      match aresult with
      | some childDir =>
        let st3 := { st2 with successfulExtractions := st2.successfulExtractions + 1 }
        let rec1 :=
          if depth < opts.maxDepth - 1 then
            processNestedArchives opts st3 childDir (depth + 1)
          else ([], st3)
        let st5 :=
          if opts.cleanupMode = CleanupMode.always ∨ opts.cleanupMode = CleanupMode.success then
            { rec1.2 with cleanedFiles := rec1.2.cleanedFiles + 1 }
          else rec1.2
        let st6 := { st5 with currentPath := st5.currentPath.dropLast }
        let rec2 := processFound opts st6 rest depth
        (NRes.mk aname true (depth + 1) rec1.1 :: rec2.1, rec2.2)
      | none =>
        let st3 := { st2 with failedExtractions := st2.failedExtractions + 1 }
        let st4 := { st3 with currentPath := st3.currentPath.dropLast }
        let rec2 := processFound opts st4 rest depth
        (NRes.mk aname false (depth + 1) [] :: rec2.1, rec2.2)
termination_by 2 * sizeOf dir
decreasing_by
  all_goals simp_wf
  all_goals omega

end

/-! ### Lemmas about the orchestrator -/

theorem detectCycle_mem_true (st : PState) (name content : String)
    (h : (content, name) ∈ st.processedHashes ∨ name ∈ st.currentPath) :
    detectCycle true st name content = (true, st) := by
  unfold detectCycle
  rcases h with h | h
  · simp [h]
  · by_cases hm : (content, name) ∈ st.processedHashes <;> simp [hm, h]

theorem detectCycle_false_spec (st : PState) (name content : String) (st' : PState)
    (h : detectCycle true st name content = (false, st')) :
    (content, name) ∉ st.processedHashes ∧ name ∉ st.currentPath ∧
    st' = { st with processedHashes := st.processedHashes ++ [(content, name)] } := by
  unfold detectCycle at h
  by_cases hm : (content, name) ∈ st.processedHashes
  · simp [hm] at h
  · by_cases hp : name ∈ st.currentPath
    · simp [hm, hp] at h
    · simp [hm, hp] at h
      exact ⟨hm, hp, h.symm⟩

theorem processNested_depth_cap (opts : NestedOptions) (st : PState)
    (dir : List ANode) (depth : Nat) (h : opts.maxDepth ≤ depth) :
    processNestedArchives opts st dir depth
      = ([], { st with maxDepthReached := Nat.max st.maxDepthReached depth }) := by
  unfold processNestedArchives
  rw [if_pos h]

theorem processNested_quota (opts : NestedOptions) (st : PState)
    (dir : List ANode) (depth : Nat) (h1 : depth < opts.maxDepth)
    (h2 : opts.maxTotalArchives ≤ st.totalProcessed) :
    processNestedArchives opts st dir depth = ([], st) := by
  unfold processNestedArchives
  rw [if_neg (by omega), if_pos h2]

mutual

theorem processNested_levels_le (opts : NestedOptions) (st : PState)
    (dir : List ANode) (depth : Nat) :
    ∀ lvl ∈ NRes.levelsList (processNestedArchives opts st dir depth).1,
      lvl ≤ opts.maxDepth := by
  unfold processNestedArchives
  split
  · intro lvl h
    simp [NRes.levelsList] at h
  · split
    · intro lvl h
      simp [NRes.levelsList] at h
    · rename_i h1 h2
      exact processFound_levels_le opts st dir depth (by omega)
termination_by (2 * sizeOf dir + 1, 0)

theorem processFound_levels_le (opts : NestedOptions) (st : PState)
    (dir : List ANode) (depth : Nat) (hd : depth < opts.maxDepth) :
    ∀ lvl ∈ NRes.levelsList (processFound opts st dir depth).1,
      lvl ≤ opts.maxDepth := by
  cases dir with
  | nil =>
    intro lvl h
    simp [processFound, NRes.levelsList] at h
  | cons a rest =>
    cases a with
    | mk aname acontent aresult =>
      intro lvl h
      simp only [processFound] at h
      rcases hdc : detectCycle opts.enableCycleDetection st aname acontent with ⟨cyc, st1⟩
      rw [hdc] at h
      cases cyc with
      | true =>
        exact processFound_levels_le opts
          { st1 with cyclesDetected := st1.cyclesDetected + 1 } rest depth hd lvl h
      | false =>
        cases aresult with
        | some childDir =>
          simp only [NRes.levelsList, NRes.levels, List.mem_append, List.mem_cons] at h
          rcases h with (h | h) | h
          · omega
          · by_cases hg : depth < opts.maxDepth - 1
            · rw [if_pos hg] at h
              exact processNested_levels_le opts _ childDir (depth + 1) lvl h
            · rw [if_neg hg] at h
              simp [NRes.levelsList] at h
          · exact processFound_levels_le opts _ rest depth hd lvl h
        | none =>
          simp only [NRes.levelsList, NRes.levels, List.mem_append, List.mem_cons] at h
          rcases h with (h | h) | h
          · omega
          · simp [NRes.levelsList] at h
          · exact processFound_levels_le opts _ rest depth hd lvl h
termination_by (2 * sizeOf dir, 0)

end

mutual

theorem processNested_mdr (opts : NestedOptions) (st : PState)
    (dir : List ANode) (depth : Nat) (h : depth < opts.maxDepth) :
    (processNestedArchives opts st dir depth).2.maxDepthReached
      = st.maxDepthReached := by
  unfold processNestedArchives
  rw [if_neg (by omega)]
  split
  · rfl
  · exact processFound_mdr opts st dir depth
termination_by (2 * sizeOf dir + 1, 0)

theorem processFound_mdr (opts : NestedOptions) (st : PState)
    (dir : List ANode) (depth : Nat) :
    (processFound opts st dir depth).2.maxDepthReached = st.maxDepthReached := by
  cases dir with
  | nil => simp [processFound]
  | cons a rest =>
    cases a with
    | mk aname acontent aresult =>
      simp only [processFound]
      rcases hdc : detectCycle opts.enableCycleDetection st aname acontent with ⟨cyc, st1⟩
      have hst1 : st1.maxDepthReached = st.maxDepthReached := by
        unfold detectCycle at hdc
        split at hdc
        · cases hdc
          rfl
        · split at hdc
          · cases hdc
            rfl
          · split at hdc
            · cases hdc
              rfl
            · cases hdc
              rfl
      cases cyc with
      | true =>
        rw [processFound_mdr opts _ rest depth]
        exact hst1
      | false =>
        cases aresult with
        | some childDir =>
          simp only
          rw [processFound_mdr opts _ rest depth]
          by_cases hg : depth < opts.maxDepth - 1
          · rw [if_pos hg]
            split
            · rename_i hclean
              simp only
              rw [processNested_mdr opts _ childDir (depth + 1) (by omega)]
              exact hst1
            · simp only
              rw [processNested_mdr opts _ childDir (depth + 1) (by omega)]
              exact hst1
          · rw [if_neg hg]
            split
            · exact hst1
            · exact hst1
        | none =>
          simp only
          rw [processFound_mdr opts _ rest depth]
          exact hst1
termination_by (2 * sizeOf dir, 0)

end

/-- The state invariant for the at-most-once property: the ghost trace of
extracted fingerprints has no duplicates and every one of them has been
recorded in the processed set. -/
def StInv (st : PState) : Prop :=
  st.extracted.Nodup ∧ ∀ h ∈ st.extracted, h ∈ st.processedHashes

mutual

theorem processNested_inv (opts : NestedOptions) (st : PState)
    (dir : List ANode) (depth : Nat)
    (he : opts.enableCycleDetection = true) (hinv : StInv st) :
    StInv (processNestedArchives opts st dir depth).2 := by
  unfold processNestedArchives
  split
  · exact hinv
  · split
    · exact hinv
    · exact processFound_inv opts st dir depth he hinv
termination_by (2 * sizeOf dir + 1, 0)

theorem processFound_inv (opts : NestedOptions) (st : PState)
    (dir : List ANode) (depth : Nat)
    (he : opts.enableCycleDetection = true) (hinv : StInv st) :
    StInv (processFound opts st dir depth).2 := by
  cases dir with
  | nil =>
    simp only [processFound]
    exact hinv
  | cons a rest =>
    cases a with
    | mk aname acontent aresult =>
      simp only [processFound]
      rcases hdc : detectCycle opts.enableCycleDetection st aname acontent with ⟨cyc, st1⟩
      cases cyc with
      | true =>
        have hst1 : st1 = st := by
          rw [he] at hdc
          unfold detectCycle at hdc
          split at hdc
          · cases hdc
          · split at hdc
            · cases hdc
              rfl
            · split at hdc
              · cases hdc
                rfl
              · cases hdc
        apply processFound_inv opts _ rest depth he
        rw [hst1]
        exact hinv
      | false =>
        rw [he] at hdc
        rcases detectCycle_false_spec st aname acontent st1 hdc with ⟨hnm, hnp, hst1⟩
        have hinv2 : StInv { st1 with
            currentPath := st1.currentPath ++ [aname],
            totalProcessed := st1.totalProcessed + 1,
            extracted := st1.extracted ++ [(acontent, aname)] } := by
          subst hst1
          constructor
          · refine List.Nodup.append hinv.1 (List.nodup_singleton _) ?_
            intro x hx hx1
            rw [List.mem_singleton] at hx1
            subst hx1
            exact hnm (hinv.2 _ hx)
          · intro h hh
            rw [List.mem_append] at hh ⊢
            rcases hh with hh | hh
            · exact Or.inl (hinv.2 h hh)
            · exact Or.inr hh
        cases aresult with
        | some childDir =>
          simp only
          apply processFound_inv opts _ rest depth he
          have hrec : StInv (if depth < opts.maxDepth - 1 then
              processNestedArchives opts { st1 with
                currentPath := st1.currentPath ++ [aname],
                totalProcessed := st1.totalProcessed + 1,
                extracted := st1.extracted ++ [(acontent, aname)],
                successfulExtractions := st1.successfulExtractions + 1 } childDir (depth + 1)
            else ([], { st1 with
                currentPath := st1.currentPath ++ [aname],
                totalProcessed := st1.totalProcessed + 1,
                extracted := st1.extracted ++ [(acontent, aname)],
                successfulExtractions := st1.successfulExtractions + 1 })).2 := by
            split
            · apply processNested_inv opts _ childDir (depth + 1) he
              exact ⟨hinv2.1, hinv2.2⟩
            · exact ⟨hinv2.1, hinv2.2⟩
          split
          · exact ⟨hrec.1, hrec.2⟩
          · exact ⟨hrec.1, hrec.2⟩
        | none =>
          simp only
          apply processFound_inv opts _ rest depth he
          exact ⟨hinv2.1, hinv2.2⟩
termination_by (2 * sizeOf dir, 0)

end

/-! ### Claim theorems: the nested orchestrator -/

/-- Options with a total-archives quota of 1, used as concrete inputs. -/
def quotaOpts : NestedOptions :=
  { maxDepth := 5, maxTotalArchives := 1, enableCycleDetection := true,
    cleanupMode := CleanupMode.success }

/-- An archive whose decode fails. -/
def failNode (nm : String) : ANode := ANode.mk nm nm none

def chainInner : ANode := ANode.mk "inner.zip" "ic" (some [])

def chainOuter : ANode := ANode.mk "outer.zip" "oc" (some [chainInner])

def chainOpts : NestedOptions :=
  { maxDepth := 5, maxTotalArchives := 50, enableCycleDetection := true,
    cleanupMode := CleanupMode.success }

/-- C6 (amended): a call entered with `depth ≥ maxDepth` returns the empty
result list with no error (only updating `maxDepthReached`); a call entered
when the running total has reached `maxTotalArchives` returns the empty
result list with the state untouched; and the recursion depth is bounded —
every `nestingLevel` in the produced result tree is at most `maxDepth`.
(The total of processed units is only bounded at entry to each recursive
call: siblings already enumerated in the current directory can push the
running total past the quota, see the counterexample.) -/
theorem nestedCaps :
    (∀ (opts : NestedOptions) (st : PState) (dir : List ANode) (depth : Nat),
        opts.maxDepth ≤ depth →
        processNestedArchives opts st dir depth
          = ([], { st with maxDepthReached := Nat.max st.maxDepthReached depth }))
    ∧ (∀ (opts : NestedOptions) (st : PState) (dir : List ANode) (depth : Nat),
        depth < opts.maxDepth →
        opts.maxTotalArchives ≤ st.totalProcessed →
        processNestedArchives opts st dir depth = ([], st))
    ∧ (∀ (opts : NestedOptions) (st : PState) (dir : List ANode) (depth lvl : Nat),
        lvl ∈ NRes.levelsList (processNestedArchives opts st dir depth).1 →
        lvl ≤ opts.maxDepth) :=
  ⟨processNested_depth_cap,
   processNested_quota,
   fun opts st dir depth lvl h => processNested_levels_le opts st dir depth lvl h⟩

/-- Witness for C6: at `depth = maxDepth` the call returns empty and only
records the depth in `maxDepthReached`. -/
theorem nestedCaps_witness :
    processNestedArchives quotaOpts initialPState [failNode "a.zip"] 5
      = ([], { initialPState with
          maxDepthReached := Nat.max initialPState.maxDepthReached 5 }) :=
  nestedCaps.1 quotaOpts initialPState [failNode "a.zip"] 5 (by decide)

/-- Counterexample for C6 as stated: with `maxTotalArchives = 1`, a single
directory holding two archives processes both — the quota is only checked
at entry to each recursive call, so the number of nested units processed
in one top-level call is not bounded by `maxTotalArchives`. -/
theorem nestedQuota_exceeded :
    quotaOpts.maxTotalArchives = 1 ∧
    (processNestedArchives quotaOpts initialPState
      [failNode "a.zip", failNode "b.zip"] 0).2.totalProcessed = 2 := by
  refine ⟨rfl, ?_⟩
  simp [processNestedArchives, processFound, detectCycle, quotaOpts, failNode, initialPState]

/-- C7: the statistic `maxDepthReached` does not track the maximum depth
actually reached.  It is updated only in the depth-cap entry branch, and
recursion is guarded by `depth < maxDepth - 1`, so no recursive call ever
arrives with `depth ≥ maxDepth`: for every run started at depth 0 with
`maxDepth > 0` the statistic keeps its initial value.  The second conjunct
evaluates the failing input: a two-level chain under `maxDepth = 5`
produces a result at `nestingLevel` 2 yet reports `maxDepthReached = 0`. -/
theorem maxDepthReached_never_tracks :
    (∀ (opts : NestedOptions) (st : PState) (dir : List ANode),
        0 < opts.maxDepth →
        (processNestedArchives opts st dir 0).2.maxDepthReached = st.maxDepthReached)
    ∧ ((processNestedArchives chainOpts initialPState [chainOuter] 0).2.maxDepthReached = 0
        ∧ 2 ∈ NRes.levelsList (processNestedArchives chainOpts initialPState [chainOuter] 0).1) := by
  refine ⟨fun opts st dir h => processNested_mdr opts st dir 0 h, ?_, ?_⟩
  · simp [processNestedArchives, processFound, detectCycle, chainOpts, chainOuter,
      chainInner, initialPState]
  · simp [processNestedArchives, processFound, detectCycle, chainOpts, chainOuter,
      chainInner, initialPState, NRes.levelsList, NRes.levels]

/-- Witness for C7: applied to the concrete chain run. -/
theorem maxDepthReached_never_tracks_witness :
    (processNestedArchives chainOpts initialPState [chainOuter] 0).2.maxDepthReached
      = initialPState.maxDepthReached :=
  maxDepthReached_never_tracks.1 chainOpts initialPState [chainOuter] (by decide)

/-- C8: with cycle detection enabled, a candidate whose content fingerprint
is already in the processed set, or whose name is on the current
recursion-path stack, is never extracted — the loop skips it, increments
`cyclesDetected` by one and continues with the remaining siblings; and in a
top-level call from the fresh state no fingerprint is ever extracted twice
(the trace of extracted fingerprints has no duplicates). -/
theorem cycleDetection_skip_once :
    (∀ (opts : NestedOptions) (st : PState) (aname acontent : String)
       (aresult : Option (List ANode)) (rest : List ANode) (depth : Nat),
        opts.enableCycleDetection = true →
        ((acontent, aname) ∈ st.processedHashes ∨ aname ∈ st.currentPath) →
        processFound opts st (ANode.mk aname acontent aresult :: rest) depth
          = processFound opts { st with cyclesDetected := st.cyclesDetected + 1 } rest depth)
    ∧ (∀ (opts : NestedOptions) (dir : List ANode) (depth : Nat),
        opts.enableCycleDetection = true →
        ((processNestedArchives opts initialPState dir depth).2.extracted).Nodup) := by
  constructor
  · intro opts st aname acontent aresult rest depth he hmem
    conv_lhs => rw [processFound]
    rw [he, detectCycle_mem_true st aname acontent hmem]
  · intro opts dir depth he
    exact (processNested_inv opts initialPState dir depth he
      ⟨List.nodup_nil, by simp [initialPState]⟩).1

/-- A state that has already processed the fingerprint of `dup.zip`. -/
def cycSt : PState := { initialPState with processedHashes := [("c", "dup.zip")] }

/-- Witness for C8: a re-encountered fingerprint is skipped with the cycle
counter incremented. -/
theorem cycleDetection_skip_once_witness :
    processFound quotaOpts cycSt [ANode.mk "dup.zip" "c" none] 0
      = processFound quotaOpts { cycSt with cyclesDetected := cycSt.cyclesDetected + 1 } [] 0 :=
  cycleDetection_skip_once.1 quotaOpts cycSt "dup.zip" "c" none [] 0 rfl
    (Or.inl (by decide))

end ZP
